import Mathlib

/-!
Verification development for the obsidian-hermine query and axis-transform
grouping engine.  The definitions below are a shallow embedding of the
TypeScript sources (`src/parser.ts`, `src/query-engine.ts`,
`src/value-transform.ts`, `src/value-picker-modal.ts`, `matrix-renderer.ts`).
JavaScript numbers are modelled as exact fractions of integers (the code's
rounding-to-9-fraction-digits step is designed to cancel float drift, so the
exact semantics coincides with the intended one on the inputs treated here);
dynamically evaluated user code (`new Function`) is modelled by an explicit
evaluation-oracle parameter; values are a JSON-like inductive type.
-/

namespace Hermine

/-! ## Exact number model

JavaScript numbers are modelled as unnormalised fractions `num / den` with
`den > 0` maintained by construction.  All operations are kernel-reducible
integer arithmetic. -/

structure Frac where
  num : Int
  den : Int
deriving DecidableEq, Repr

def Frac.ofInt (n : Int) : Frac := ⟨n, 1⟩

def Frac.add (a b : Frac) : Frac := ⟨a.num * b.den + b.num * a.den, a.den * b.den⟩

def Frac.sub (a b : Frac) : Frac := ⟨a.num * b.den - b.num * a.den, a.den * b.den⟩

def Frac.mul (a b : Frac) : Frac := ⟨a.num * b.num, a.den * b.den⟩

/-- Division `a / b`; keeps the denominator positive when `b ≠ 0`. -/
def Frac.div (a b : Frac) : Frac :=
  if b.num < 0 then ⟨-(a.num * b.den), a.den * (-b.num)⟩
  else ⟨a.num * b.den, a.den * b.num⟩

/-- Boolean `a ≤ b` (valid for positive denominators). -/
def Frac.leB (a b : Frac) : Bool := a.num * b.den ≤ b.num * a.den

/-- Boolean `a < b` (valid for positive denominators). -/
def Frac.ltB (a b : Frac) : Bool := a.num * b.den < b.num * a.den

/-- Numeric equality of fractions (the semantics of `===` on JS numbers). -/
def Frac.eqB (a b : Frac) : Bool := a.num * b.den == b.num * a.den

/-- Floor to an integer (valid for positive denominators). -/
def Frac.floorI (q : Frac) : Int := Int.fdiv q.num q.den

def fracZero : Frac := ⟨0, 1⟩

/-! ## JavaScript value model -/

inductive JVal where
  | vUndefined : JVal
  | vNull : JVal
  | vBool : Bool → JVal
  | vNum : Frac → JVal
  | vStr : String → JVal
  | vArr : List JVal → JVal
  | vObj : List (String × JVal) → JVal

mutual

def jvalBEq : JVal → JVal → Bool
  | .vUndefined, .vUndefined => true
  | .vNull, .vNull => true
  | .vBool a, .vBool b => a == b
  | .vNum a, .vNum b => a == b
  | .vStr a, .vStr b => a == b
  | .vArr a, .vArr b => jvalListBEq a b
  | .vObj a, .vObj b => jvalObjBEq a b
  | _, _ => false

def jvalListBEq : List JVal → List JVal → Bool
  | [], [] => true
  | a :: as, b :: bs => jvalBEq a b && jvalListBEq as bs
  | _, _ => false

def jvalObjBEq : List (String × JVal) → List (String × JVal) → Bool
  | [], [] => true
  | (k1, v1) :: as, (k2, v2) :: bs => k1 == k2 && jvalBEq v1 v2 && jvalObjBEq as bs
  | _, _ => false

end

mutual

theorem jvalBEq_eq : ∀ (a b : JVal), jvalBEq a b = true ↔ a = b
  | .vArr xs, .vArr ys => by
    have h := jvalListBEq_eq xs ys
    simp [jvalBEq, h]
  | .vObj xs, .vObj ys => by
    have h := jvalObjBEq_eq xs ys
    simp [jvalBEq, h]
  | .vUndefined, b => by cases b <;> simp [jvalBEq, jvalListBEq, jvalObjBEq]
  | .vNull, b => by cases b <;> simp [jvalBEq, jvalListBEq, jvalObjBEq]
  | .vBool x, b => by cases b <;> simp [jvalBEq]
  | .vNum x, b => by cases b <;> simp [jvalBEq]
  | .vStr x, b => by cases b <;> simp [jvalBEq]
  | .vArr xs, .vUndefined => by simp [jvalBEq]
  | .vArr xs, .vNull => by simp [jvalBEq]
  | .vArr xs, .vBool y => by simp [jvalBEq]
  | .vArr xs, .vNum y => by simp [jvalBEq]
  | .vArr xs, .vStr y => by simp [jvalBEq]
  | .vArr xs, .vObj y => by simp [jvalBEq]
  | .vObj xs, .vUndefined => by simp [jvalBEq]
  | .vObj xs, .vNull => by simp [jvalBEq]
  | .vObj xs, .vBool y => by simp [jvalBEq]
  | .vObj xs, .vNum y => by simp [jvalBEq]
  | .vObj xs, .vStr y => by simp [jvalBEq]
  | .vObj xs, .vArr y => by simp [jvalBEq]

theorem jvalListBEq_eq : ∀ (xs ys : List JVal), jvalListBEq xs ys = true ↔ xs = ys
  | [], [] => by simp [jvalListBEq]
  | [], _ :: _ => by simp [jvalListBEq]
  | _ :: _, [] => by simp [jvalListBEq]
  | x :: xs, y :: ys => by
    have h1 := jvalBEq_eq x y
    have h2 := jvalListBEq_eq xs ys
    simp [jvalListBEq, h1, h2]

theorem jvalObjBEq_eq : ∀ (xs ys : List (String × JVal)), jvalObjBEq xs ys = true ↔ xs = ys
  | [], [] => by simp [jvalObjBEq]
  | [], _ :: _ => by simp [jvalObjBEq]
  | _ :: _, [] => by simp [jvalObjBEq]
  | (k1, v1) :: xs, (k2, v2) :: ys => by
    have h1 := jvalBEq_eq v1 v2
    have h2 := jvalObjBEq_eq xs ys
    simp [jvalObjBEq, h1, h2, and_assoc]

end

instance : BEq JVal := ⟨jvalBEq⟩

instance : LawfulBEq JVal where
  eq_of_beq h := (jvalBEq_eq _ _).mp h
  rfl := (jvalBEq_eq _ _).mpr rfl

instance : DecidableEq JVal := fun a b => decidable_of_iff _ (jvalBEq_eq a b)

/-! ## Character and string helpers (JS `trim`, `split`, `toLowerCase`, ...) -/

def jsIsSpace (c : Char) : Bool := c.isWhitespace

/-- A `\w` word character of JS regexes. -/
def isWordChar (c : Char) : Bool := c.isAlphanum || c == '_'

def charEqCI (a b : Char) : Bool := a.toLower == b.toLower

def trimChars (cs : List Char) : List Char :=
  ((cs.dropWhile jsIsSpace).reverse.dropWhile jsIsSpace).reverse

/-- JS `String.prototype.trim`. -/
def jsTrim (s : String) : String := ⟨trimChars s.data⟩

def toLowerChars (cs : List Char) : List Char := cs.map Char.toLower

/-- JS `String.prototype.toLowerCase` (ASCII idealisation). -/
def jsToLower (s : String) : String := ⟨toLowerChars s.data⟩

/-- Source `split` on a single separator character, JS semantics (empty pieces kept). -/
def splitCharAux (sep : Char) : List Char → List Char → List (List Char)
  | [], acc => [acc.reverse]
  | c :: cs, acc =>
    if c == sep then acc.reverse :: splitCharAux sep cs []
    else splitCharAux sep cs (c :: acc)

def splitChar (sep : Char) (s : String) : List String :=
  (splitCharAux sep s.data []).map fun cs => ⟨cs⟩

/-- Does `lit` occur as a prefix of `cs` (character-exact)? -/
def litAt : List Char → List Char → Bool
  | [], _ => true
  | _ :: _, [] => false
  | a :: as, b :: bs => a == b && litAt as bs

/-- JS `String.prototype.includes` via an explicit scan. -/
def containsSub (needle : List Char) : List Char → Bool
  | [] => litAt needle []
  | c :: rest => litAt needle (c :: rest) || containsSub needle rest

/-- Match a literal case-insensitively at the head, returning the remainder. -/
def matchLitCI : List Char → List Char → Option (List Char)
  | [], cs => some cs
  | _ :: _, [] => none
  | a :: as, b :: bs => if charEqCI a b then matchLitCI as bs else none

/-! ## Decimal literal parsing and JS number formatting -/

def digitVal (c : Char) : Nat := c.toNat - '0'.toNat

def readDigits : List Char → Nat → (Nat × List Char)
  | c :: cs, acc => if c.isDigit then readDigits cs (acc * 10 + digitVal c) else (acc, c :: cs)
  | [], acc => (acc, [])

/-- Parse `\d+` (one or more digits), returning the value, digit count, remainder. -/
def parseDigits1 (cs : List Char) : Option (Nat × Nat × List Char) :=
  match cs with
  | c :: _ =>
    if c.isDigit then
      let digs := cs.takeWhile Char.isDigit
      let rest := cs.dropWhile Char.isDigit
      some ((readDigits digs 0).1, digs.length, rest)
    else none
  | [] => none

/-- Parse the regex numeral `\d+(?:\.\d+)?` as an exact fraction
(`parseFloat` on such a literal, idealised to exact decimal value). -/
def parseUnsignedDec (cs : List Char) : Option (Frac × List Char) := do
  let (ip, _, rest) ← parseDigits1 cs
  match rest with
  | '.' :: rest2 =>
    match parseDigits1 rest2 with
    | some (fp, k, rest3) =>
      some (⟨(ip : Int) * (10 : Int) ^ k + (fp : Int), (10 : Int) ^ k⟩, rest3)
    | none => some (⟨(ip : Int), 1⟩, rest)
  | _ => some (⟨(ip : Int), 1⟩, rest)

/-- Parse the regex numeral `-?\d+(?:\.\d+)?`. -/
def parseSignedDec (cs : List Char) : Option (Frac × List Char) :=
  match cs with
  | '-' :: rest =>
    match parseUnsignedDec rest with
    | some (q, rest2) => some (⟨-q.num, q.den⟩, rest2)
    | none => none
  | _ => parseUnsignedDec cs

/-- Fraction digits of `r/d` (long division), at most `fuel` digits. -/
def fracDigits (fuel : Nat) (r d : Int) : List Char :=
  match fuel with
  | 0 => []
  | fuel + 1 =>
    if r == 0 then []
    else
      let q := Int.fdiv (r * 10) d
      let r2 := r * 10 - q * d
      Char.ofNat ('0'.toNat + q.toNat) :: fracDigits fuel r2 d

/-- JS `String(n)` for a finite number `n`, idealised to exact decimals
(all values printed by the code have short terminating expansions). -/
def decimalString (q : Frac) : String :=
  if q.num.emod q.den == 0 then toString (Int.fdiv q.num q.den)
  else
    let neg := q.num < 0
    let an := if neg then -q.num else q.num
    let ip := Int.fdiv an q.den
    let r := an - ip * q.den
    let ds := fracDigits 20 r q.den
    (if neg then "-" else "") ++ toString ip ++ "." ++ ⟨ds⟩

/-- JS `Math.round` (half rounds toward positive infinity). -/
def jsRound (q : Frac) : Int := (q.add ⟨1, 2⟩).floorI

/-- Source `Math.round(v * 1e9) / 1e9` from `parseAxisValues`. -/
def roundTo9 (q : Frac) : Frac := ⟨jsRound (q.mul ⟨1000000000, 1⟩), 1000000000⟩

/-! ## JS stringification of values -/

mutual

/-- Elements of an array stringify with `null`/`undefined` as empty. -/
def jsStringItem : JVal → String
  | .vUndefined => ""
  | .vNull => ""
  | .vBool b => if b then "true" else "false"
  | .vNum q => decimalString q
  | .vStr s => s
  | .vArr xs => jsStringList xs
  | .vObj _ => "[object Object]"

def jsStringList : List JVal → String
  | [] => ""
  | [x] => jsStringItem x
  | x :: y :: rest => jsStringItem x ++ "," ++ jsStringList (y :: rest)

end

/-- JS `String(v)`. -/
def jsString : JVal → String
  | .vUndefined => "undefined"
  | .vNull => "null"
  | .vBool b => if b then "true" else "false"
  | .vNum q => decimalString q
  | .vStr s => s
  | .vArr xs => jsStringList xs
  | .vObj _ => "[object Object]"

/-- JS truthiness. -/
def jsFalsy : JVal → Bool
  | .vUndefined => true
  | .vNull => true
  | .vBool b => !b
  | .vNum q => q.num == 0
  | .vStr s => s == ""
  | _ => false

/-- Source `SameValueZero`, the membership test of JS `Set`/`Array.includes`
(numbers compare numerically; compound values structurally — an idealisation
of reference identity that the claims do not exercise). -/
def jvalSVZ (a b : JVal) : Bool :=
  match a, b with
  | .vNum x, .vNum y => x.eqB y
  | x, y => x == y

/-- Source `Set.prototype.has` membership. -/
def setHas (s : List JVal) (v : JVal) : Bool := s.any fun w => jvalSVZ w v

/-- Source `Set.prototype.add`: insert preserving first-seen order, deduplicated. -/
def jsSetAdd (s : List JVal) (v : JVal) : List JVal :=
  if setHas s v then s else s ++ [v]

/-! ## JS object (property-record) operations -/

/-- First binding of a key in an object's field list (JS objects keep keys
unique, which `objSet` maintains). -/
def lookupField : List (String × JVal) → String → Option JVal
  | [], _ => none
  | (k, v) :: rest, key => if k == key then some v else lookupField rest key

/-- JS property assignment `o[k] = v`: overwrite in place, else append. -/
def objSet : List (String × JVal) → String → JVal → List (String × JVal)
  | [], key, v => [(key, v)]
  | (k, w) :: rest, key, v =>
    if k == key then (k, v) :: rest else (k, w) :: objSet rest key v

/-- Source `Object.assign(target, source)`: copy every binding of `source` into
`target`, in order. -/
def objAssign (target : List (String × JVal)) : List (String × JVal) → List (String × JVal)
  | [] => target
  | (k, v) :: rest => objAssign (objSet target k v) rest

/-! ## Dotted-path property lookup (`QueryEngine.getPropertyValue`,
duplicated verbatim in `MatrixRenderer.getPropertyValue`)

`jsMember` models a single JS member access `value[part]`: it traps
(`TypeError`) exactly on `null`/`undefined` bases; on any other base it is
total, yielding `undefined` for missing keys (prototype members are not
modelled).  `getPropParts` is the loop of the source with its
null/undefined guard; `getPropertyValue` is the same loop rendered as the
total function the guard makes it (claim C8 proves the two agree). -/

def decodeArrayIndex (k : String) : Option Nat :=
  match parseDigits1 k.data with
  | some (n, _, []) => if toString n == k then some n else none
  | _ => none

def jsMember : JVal → String → Except String JVal
  | .vNull, _ => .error "TypeError"
  | .vUndefined, _ => .error "TypeError"
  | .vObj fields, key =>
    .ok (match lookupField fields key with
         | some v => v
         | none => .vUndefined)
  | .vArr elems, key =>
    .ok (match decodeArrayIndex key with
         | some i => (elems.drop i).headD .vUndefined
         | none => .vUndefined)
  | _, _ => .ok .vUndefined

def getPropParts : JVal → List String → Except String JVal
  | value, [] => .ok value
  | value, part :: rest =>
    if value == JVal.vNull || value == JVal.vUndefined then .ok .vUndefined
    else
      match jsMember value part with
      | .ok v => getPropParts v rest
      | .error e => .error e

/-- The same loop as a total function (the guard makes the trap unreachable). -/
def getPropPartsT : JVal → List String → JVal
  | value, [] => value
  | value, part :: rest =>
    if value == JVal.vNull || value == JVal.vUndefined then .vUndefined
    else
      match jsMember value part with
      | .ok v => getPropPartsT v rest
      | .error _ => .vUndefined

/-- Source `path.split(".")`. -/
def splitPath (path : String) : List String := splitChar '.' path

def getPropertyValueE (properties : JVal) (path : String) : Except String JVal :=
  getPropParts properties (splitPath path)

/-- Source `QueryEngine.getPropertyValue(properties, path)`. -/
def getPropertyValue (properties : JVal) (path : String) : JVal :=
  getPropPartsT properties (splitPath path)

/-! ## Value transforms (`src/value-transform.ts`)

A compiled user transform is a function on values that may throw; a thrown
exception is modelled by `none`. -/

def JsFun := JVal → Option JVal

/-- Source `compileTransform(expr)`.  `evalFn` is the oracle standing for
`new Function('"use strict"; return (…);')()`: it returns `none` when the
evaluation throws or does not produce a function (both paths return `null`
in the source). -/
def compileTransform (evalFn : String → Option JsFun) (expr : String) : Option JsFun :=
  let trimmed := jsTrim expr
  if !(trimmed.data.headD ' ' == '(') then none
  else evalFn trimmed

/-- Source `applyTransform(rawValue, transformFn)`: identity without a transform;
a runtime failure on one value returns that value unchanged. -/
def applyTransform (rawValue : JVal) (transformFn : Option JsFun) : JVal :=
  match transformFn with
  | none => rawValue
  | some f =>
    match f rawValue with
    | some r => r
    | none => rawValue

/-! ## Reverse map (`buildReverseMap`) -/

def mapGet : List (String × List JVal) → String → Option (List JVal)
  | [], _ => none
  | (k, v) :: rest, key => if k == key then some v else mapGet rest key

def mapSet : List (String × List JVal) → String → List JVal → List (String × List JVal)
  | [], key, v => [(key, v)]
  | (k, w) :: rest, key, v =>
    if k == key then (k, v) :: rest else (k, w) :: mapSet rest key v

/-- Source `buildReverseMap(allRawValues, transformFn)`: transformed display value
(canonical string) → distinct raw values in first-seen order. -/
def buildReverseMap (allRawValues : List JVal) (transformFn : JsFun) : List (String × List JVal) :=
  allRawValues.foldl
    (fun reverseMap raw =>
      let transformed := jsString (applyTransform raw (some transformFn))
      let m := if (mapGet reverseMap transformed).isSome then reverseMap
               else mapSet reverseMap transformed []
      let arr := (mapGet m transformed).getD []
      if arr.any (fun w => jvalSVZ w raw) then m
      else mapSet m transformed (arr ++ [raw]))
    []

/-! ## Axis value parsing (`parseAxisValues` in `src/parser.ts`) -/

/-- Does the word `w` match case-insensitively at the head of `cs`, followed
by a `\b` boundary (end of string or a non-word character)? -/
def wordHereCI (w : List Char) (cs : List Char) : Bool :=
  match w, cs with
  | [], [] => true
  | [], c :: _ => !isWordChar c
  | _ :: _, [] => false
  | a :: as, b :: bs => charEqCI a b && wordHereCI as bs

/-- The test `/\bw\b/i.test(value)`: `w` occurs with word boundaries on both
sides.  `prevIsWord` tracks whether the previous character was a word
character (false at the start of the string). -/
def containsWordCIAux (w : List Char) : Bool → List Char → Bool
  | _, [] => false
  | prevIsWord, c :: rest =>
    (!prevIsWord && wordHereCI w (c :: rest)) || containsWordCIAux w (isWordChar c) rest

def containsWordCI (s : String) (w : String) : Bool :=
  containsWordCIAux w.data false s.data

/-- Match the literal `w` case-insensitively followed by a `\b` boundary,
returning the remainder. -/
def matchWordTailCI : List Char → List Char → Option (List Char)
  | [], rest =>
    (match rest with
     | [] => some []
     | c :: _ => if isWordChar c then none else some rest)
  | _ :: _, [] => none
  | a :: as, b :: bs => if charEqCI a b then matchWordTailCI as bs else none

/-- Try to match the pattern `,?\s*w\b` (case-insensitive) at the head. -/
def stripPatAt (w : List Char) (cs : List Char) : Option (List Char) :=
  let noComma := matchWordTailCI w (cs.dropWhile jsIsSpace)
  match cs with
  | ',' :: rest =>
    (match matchWordTailCI w (rest.dropWhile jsIsSpace) with
     | some r => some r
     | none => noComma)
  | _ => noComma

/-- Source `value.replace(/,?\s*w\b/i, "")`: delete the leftmost match, if any. -/
def replaceFirstPat (w : List Char) : List Char → List Char
  | [] => []
  | c :: rest =>
    match stripPatAt w (c :: rest) with
    | some remainder => remainder
    | none => c :: replaceFirstPat w rest

/-- The anchored range regex
`^\[\s*(-?\d+(?:\.\d+)?)\s*\.\.\s*(-?\d+(?:\.\d+)?)\s*(?:,\s*[Ss]tep\s+(\d+(?:\.\d+)?))?\s*\]$`,
returning `from`, `to` and the optional step. -/
def parseRange (value : String) : Option (Frac × Frac × Option Frac) :=
  match value.data with
  | '[' :: cs => do
    let (f, cs) ← parseSignedDec (cs.dropWhile jsIsSpace)
    let cs := cs.dropWhile jsIsSpace
    match cs with
    | '.' :: '.' :: cs => do
      let (t, cs) ← parseSignedDec (cs.dropWhile jsIsSpace)
      let cs := cs.dropWhile jsIsSpace
      match cs with
      | ',' :: cs => do
        let cs := cs.dropWhile jsIsSpace
        match cs with
        | c :: cs =>
          if c == 'S' || c == 's' then
            match matchLitCI ['t', 'e', 'p'] cs with
            | some cs =>
              match cs with
              | c2 :: cs2 =>
                if jsIsSpace c2 then do
                  let (s, cs3) ← parseUnsignedDec (cs2.dropWhile jsIsSpace)
                  match cs3.dropWhile jsIsSpace with
                  | [']'] => some (f, t, some s)
                  | _ => none
                else none
              | [] => none
            | none => none
          else none
        | [] => none
      | [']'] => some (f, t, none)
      | _ => none
    | _ => none
  | _ => none

/-- The generation loops of `parseAxisValues`, rendered as the arithmetic
progression a counted `for` loop visits (`v` starts at `from` and steps by
`step` while within the tolerance-extended bound).  A non-positive step
returns `[String(from)]`. -/
def expandRangeValues (f t s : Frac) : List String :=
  if s.leB fracZero then [decimalString f]
  else
    let tol := s.mul ⟨1, 1000000000⟩
    if f.leB t then
      let count := (((t.add tol).sub f).div s).floorI.toNat + 1
      (List.range count).map fun k => decimalString (roundTo9 (f.add (s.mul (Frac.ofInt k))))
    else
      let count := ((f.sub (t.sub tol)).div s).floorI.toNat + 1
      (List.range count).map fun k => decimalString (roundTo9 (f.sub (s.mul (Frac.ofInt k))))

/-- Source `parseAxisValues(value)`: detect/strip the `exakt`/`exact` keyword, then
either expand a numeric range (default step 1) or fall back to a
comma-separated list (trimmed, empty segments dropped). -/
def parseAxisValues (value : String) : List String × Bool :=
  let (value, exactFlag) :=
    if containsWordCI value "exakt" || containsWordCI value "exact" then
      (jsTrim ⟨replaceFirstPat "exact".data (replaceFirstPat "exakt".data value.data)⟩, true)
    else (value, false)
  match parseRange value with
  | some (f, t, stepOpt) =>
    (expandRangeValues f t (stepOpt.getD ⟨1, 1⟩), exactFlag)
  | none =>
    (((splitChar ',' value).map jsTrim).filter (fun s => !(s == "")), exactFlag)

/-! ## Filter DSL (`QueryEngine.evaluateFilter`)

The two regex shapes `(\S+)\s+contains\s+"([^"]+)"` (case-insensitive) and
`(\S+)\s*(!?=)\s*"([^"]+)"` are rendered as explicit backtracking matchers:
the search scans start positions left to right, and at each start the greedy
`\S+` group is tried from longest to shortest. -/

/-- Match `"([^"]+)"` at the head, returning the captured value. -/
def quotedValue (cs : List Char) : Option String :=
  match cs with
  | '"' :: rest =>
    let val := rest.takeWhile (fun c => !(c == '"'))
    if val.isEmpty then none
    else
      match rest.drop val.length with
      | '"' :: _ => some ⟨val⟩
      | _ => none
  | _ => none

/-- Match `\s*(!?=)\s*"([^"]+)"` at the head (the part after group 1). -/
def eqTailMatch (cs : List Char) : Option (String × String) :=
  match cs.dropWhile jsIsSpace with
  | '!' :: '=' :: rest =>
    (match quotedValue (rest.dropWhile jsIsSpace) with
     | some v => some ("!=", v)
     | none => none)
  | '=' :: rest =>
    (match quotedValue (rest.dropWhile jsIsSpace) with
     | some v => some ("=", v)
     | none => none)
  | _ => none

/-- Greedy backtracking over the length of group 1 (longest first). -/
def eqTryGroup1 (cs : List Char) : Nat → Option (String × String × String)
  | 0 => none
  | k + 1 =>
    match eqTailMatch (cs.drop (k + 1)) with
    | some (op, v) => some (⟨cs.take (k + 1)⟩, op, v)
    | none => eqTryGroup1 cs k

def matchEqualsAt (cs : List Char) : Option (String × String × String) :=
  eqTryGroup1 cs (cs.takeWhile (fun c => !jsIsSpace c)).length

def searchEquals : List Char → Option (String × String × String)
  | [] => none
  | c :: rest =>
    match matchEqualsAt (c :: rest) with
    | some r => some r
    | none => searchEquals rest

/-- Match `\s+contains\s+"([^"]+)"` at the head (case-insensitive literal). -/
def containsTailMatch (cs : List Char) : Option String :=
  match cs with
  | c :: rest =>
    if jsIsSpace c then
      match matchLitCI "contains".data (rest.dropWhile jsIsSpace) with
      | some cs2 =>
        (match cs2 with
         | c2 :: rest2 =>
           if jsIsSpace c2 then quotedValue (rest2.dropWhile jsIsSpace)
           else none
         | [] => none)
      | none => none
    else none
  | [] => none

def containsTryGroup1 (cs : List Char) : Nat → Option (String × String)
  | 0 => none
  | k + 1 =>
    match containsTailMatch (cs.drop (k + 1)) with
    | some v => some (⟨cs.take (k + 1)⟩, v)
    | none => containsTryGroup1 cs k

def matchContainsAt (cs : List Char) : Option (String × String) :=
  containsTryGroup1 cs (cs.takeWhile (fun c => !jsIsSpace c)).length

def searchContains : List Char → Option (String × String)
  | [] => none
  | c :: rest =>
    match matchContainsAt (c :: rest) with
    | some r => some r
    | none => searchContains rest

/-! ## Engine data model -/

structure TStat where
  ctime : Int
  mtime : Int
  size : Int
deriving DecidableEq, Repr

structure TFile where
  path : String
  basename : String
  extension : String
  stat : TStat
deriving DecidableEq, Repr

/-- Metadata-cache entry: frontmatter record (if any) and the result of
`getAllTags` (`none` models a `null` return, absorbed by `|| []`). -/
structure FileCache where
  frontmatter : Option (List (String × JVal)) := none
  allTags : Option (List String) := none

inductive AFile where
  | tFile : TFile → AFile
  | tFolder : List AFile → AFile

structure Vault where
  markdownFiles : List TFile
  fileCache : TFile → Option FileCache
  byPath : List (String × AFile)

structure DocumentData where
  file : TFile
  path : String
  name : String
  properties : JVal
deriving DecidableEq

structure SortSpec where
  sortBy : String   -- source field name: by
  order : String    -- "asc" | "desc"

structure HermineConfig where
  source : String
  xAxis : String := ""
  yAxis : Option String := none
  xValues : Option (List String) := none
  yValues : Option (List String) := none
  xReadonly : Bool := false
  yReadonly : Bool := false
  xTransform : Option String := none
  yTransform : Option String := none
  whereFilter : Option String := none   -- source field name: where
  filter : Option String := none
  sortSpec : Option SortSpec := none    -- source field name: sort

structure QueryResult where
  documents : List DocumentData
  xAxisValues : List JVal
  yAxisValues : List JVal
  xAxisRawValues : List JVal
  yAxisRawValues : List JVal
  errors : List String

/-- Truthiness of an optional string config field (`undefined` and `""` are
falsy in the source's `if (config.field)` tests). -/
def strOptTruthy : Option String → Bool
  | some s => !(s == "")
  | none => false

/-! ## Source resolution (`QueryEngine.getSourceFiles`) -/

def assocAFile : List (String × AFile) → String → Option AFile
  | [], _ => none
  | (k, v) :: rest, key => if k == key then some v else assocAFile rest key

/-- Source `QueryEngine.collectFilesRecursive`: in-order collection of `.md` files. -/
def collectFilesRecursive : List AFile → List TFile
  | [] => []
  | .tFile f :: rest => (if f.extension == "md" then [f] else []) ++ collectFilesRecursive rest
  | .tFolder children :: rest => collectFilesRecursive children ++ collectFilesRecursive rest

/-- Source `QueryEngine.getFilesFromFolder`: empty if the path is not a folder. -/
def getFilesFromFolder (vault : Vault) (folderPath : String) : List TFile :=
  match assocAFile vault.byPath folderPath with
  | some (.tFolder children) => collectFilesRecursive children
  | _ => []

/-- Source `QueryEngine.getSourceFiles(source)`. -/
def getSourceFiles (vault : Vault) (source : String) : List TFile :=
  if source == "all" || source == "alle" || source == "*" then
    vault.markdownFiles
  else if source.data.headD ' ' == '#' then
    let tag := jsToLower source
    vault.markdownFiles.filter fun file =>
      match vault.fileCache file with
      | some cache =>
        (cache.allTags.getD []).any fun t =>
          jsToLower t == tag || litAt (tag ++ "/").data (jsToLower t).data
      | none => false
  else if source.data.headD ' ' == '"' && source.data.getLast? == some '"' then
    getFilesFromFolder vault ⟨(source.data.drop 1).dropLast⟩
  else
    getFilesFromFolder vault source

/-! ## Document loading (`QueryEngine.getDocumentData`) -/

def getDocumentData (vault : Vault) (file : TFile) : Option DocumentData :=
  match vault.fileCache file with
  | none => none
  | some cache =>
    let properties : List (String × JVal) :=
      match cache.frontmatter with
      | some fm => objAssign [] fm
      | none => []
    let properties := objSet properties "file.name" (.vStr file.basename)
    let properties := objSet properties "file.path" (.vStr file.path)
    let properties := objSet properties "file.ctime" (.vNum (Frac.ofInt file.stat.ctime))
    let properties := objSet properties "file.mtime" (.vNum (Frac.ofInt file.stat.mtime))
    let properties := objSet properties "file.size" (.vNum (Frac.ofInt file.stat.size))
    let tags := cache.allTags.getD []
    let properties := objSet properties "file.tags" (.vArr (tags.map JVal.vStr))
    some { file := file, path := file.path, name := file.basename, properties := .vObj properties }

/-! ## Filter evaluation (`QueryEngine.evaluateFilter`) -/

def evaluateFilter (doc : DocumentData) (filter : String) : Bool :=
  match searchContains filter.data with
  | some (prop, value) =>
    let propValue := getPropertyValue doc.properties prop
    (match propValue with
     | .vArr vs => vs.any fun v => containsSub value.data (jsString v).data
     | pv => containsSub value.data (jsString (if jsFalsy pv then .vStr "" else pv)).data)
  | none =>
    match searchEquals filter.data with
    | some (prop, op, value) =>
      let propValue := getPropertyValue doc.properties prop
      let isEqual := jsString propValue == value
      if op == "!=" then !isEqual else isEqual
    | none => true

/-! ## Sorting (`QueryEngine.sortDocuments`)

JS `<` on primitives: strings compare lexicographically, otherwise both
operands convert to numbers (`NaN` makes the comparison false).  The stable
native sort with the source's -1/0/1 comparator is rendered as a stable
merge sort by `comparison ≤ 0`. -/

def lexLess : List Char → List Char → Bool
  | [], [] => false
  | [], _ :: _ => true
  | _ :: _, [] => false
  | a :: as, b :: bs => a < b || (a == b && lexLess as bs)

def toPrimForCompare : JVal → JVal
  | .vArr xs => .vStr (jsStringList xs)
  | .vObj _ => .vStr "[object Object]"
  | v => v

/-- JS `ToNumber` of a decimal string (`none` is `NaN`). -/
def strToNumber (s : String) : Option Frac :=
  match trimChars s.data with
  | [] => some fracZero
  | cs =>
    match parseSignedDec cs with
    | some (q, []) => some q
    | _ => none

/-- JS `ToNumber` on a primitive (decimal strings only; `none` is `NaN`). -/
def jsToNumberPrim : JVal → Option Frac
  | .vUndefined => none
  | .vNull => some fracZero
  | .vBool b => some (if b then ⟨1, 1⟩ else fracZero)
  | .vNum q => some q
  | .vStr s => strToNumber s
  | .vArr xs => strToNumber (jsStringList xs)
  | .vObj _ => none

def jsLess (a b : JVal) : Bool :=
  match toPrimForCompare a, toPrimForCompare b with
  | .vStr x, .vStr y => lexLess x.data y.data
  | pa, pb =>
    match jsToNumberPrim pa, jsToNumberPrim pb with
    | some x, some y => x.ltB y
    | _, _ => false

def sortDocuments (documents : List DocumentData) (sort : SortSpec) : List DocumentData :=
  documents.mergeSort fun a b =>
    let aVal := getPropertyValue a.properties sort.sortBy
    let bVal := getPropertyValue b.properties sort.sortBy
    let comparison : Int := if jsLess aVal bVal then -1 else if jsLess bVal aVal then 1 else 0
    (if sort.order == "desc" then -comparison else comparison) ≤ 0

/-! ## Query execution (`QueryEngine.execute`) -/

/-- Intermediate state of one execution pass (the locals of `execute`). -/
structure EngineState where
  documents : List DocumentData
  xAxisValues : List JVal
  yAxisValues : List JVal
  xRawValues : List JVal
  yRawValues : List JVal
  errors : List String

/-- Oracles for the dynamically evaluated user code: `evalFn` stands for the
`new Function` call of `compileTransform`; `evalSetFilter` stands for
compiling and calling the whole-set filter (`.error` models a throw at
either step, `.ok none` a non-array result). -/
structure JsEnv where
  evalFn : String → Option JsFun
  evalSetFilter : String → List DocumentData → Except String (Option (List DocumentData))

structure AxisAcc where
  raws : List JVal
  labels : List JVal

/-- One axis-collection block of `execute` (duplicated in the source for
x/y and for the post-filter recomputation): skip absent values, push array
elements individually, add each transformed label to the bucket set. -/
def collectAxis (transformFn : Option JsFun) (axis : String) (properties : JVal)
    (acc : AxisAcc) : AxisAcc :=
  let value := getPropertyValue properties axis
  if value == JVal.vUndefined || value == JVal.vNull then acc
  else
    match value with
    | .vArr vs =>
      vs.foldl (fun a v => ⟨a.raws ++ [v], jsSetAdd a.labels (applyTransform v transformFn)⟩) acc
    | v => ⟨acc.raws ++ [v], jsSetAdd acc.labels (applyTransform v transformFn)⟩

def collectDocAxes (config : HermineConfig) (xTfn yTfn : Option JsFun)
    (st : EngineState) (doc : DocumentData) : EngineState :=
  let st :=
    if !(config.xAxis == "") then
      let acc := collectAxis xTfn config.xAxis doc.properties ⟨st.xRawValues, st.xAxisValues⟩
      { st with xRawValues := acc.raws, xAxisValues := acc.labels }
    else st
  if strOptTruthy config.yAxis then
    let acc := collectAxis yTfn (config.yAxis.getD "") doc.properties ⟨st.yRawValues, st.yAxisValues⟩
    { st with yRawValues := acc.raws, yAxisValues := acc.labels }
  else st

/-- The per-file loop body of `execute`: load, apply the `where` filter,
push the document and collect both axes. -/
def perFileStep (vault : Vault) (config : HermineConfig) (xTfn yTfn : Option JsFun)
    (st : EngineState) (file : TFile) : EngineState :=
  match getDocumentData vault file with
  | none => st
  | some docData =>
    if strOptTruthy config.whereFilter && !evaluateFilter docData (config.whereFilter.getD "") then st
    else collectDocAxes config xTfn yTfn { st with documents := st.documents ++ [docData] } docData

/-- The whole-set filter stage of `execute` (`if (config.filter) { try ... }`):
a throw appends one error and keeps the state; a non-array result is
ignored; an array result replaces the documents and fully recomputes the
axis values and raw values. -/
def applyWholeSetFilter (env : JsEnv) (config : HermineConfig) (xTfn yTfn : Option JsFun)
    (st : EngineState) : EngineState :=
  if strOptTruthy config.filter then
    match env.evalSetFilter (config.filter.getD "") st.documents with
    | .error e => { st with errors := st.errors ++ ["Filter error: " ++ e] }
    | .ok none => st
    | .ok (some filtered) =>
      let st := { st with documents := filtered,
                          xAxisValues := [], yAxisValues := [],
                          xRawValues := [], yRawValues := [] }
      filtered.foldl (collectDocAxes config xTfn yTfn) st
  else st

/-- Source `QueryEngine.execute(config)`. -/
def execute (env : JsEnv) (vault : Vault) (config : HermineConfig) : QueryResult :=
  let xTransformFn :=
    if strOptTruthy config.xTransform then compileTransform env.evalFn (config.xTransform.getD "")
    else none
  let yTransformFn :=
    if strOptTruthy config.yTransform then compileTransform env.evalFn (config.yTransform.getD "")
    else none
  let files := getSourceFiles vault config.source
  let st := files.foldl (perFileStep vault config xTransformFn yTransformFn)
    ⟨[], [], [], [], [], []⟩
  let st := applyWholeSetFilter env config xTransformFn yTransformFn st
  let documents :=
    match config.sortSpec with
    | some sortSpec => sortDocuments st.documents sortSpec
    | none => st.documents
  { documents := documents,
    xAxisValues := st.xAxisValues, yAxisValues := st.yAxisValues,
    xAxisRawValues := st.xRawValues, yAxisRawValues := st.yRawValues,
    errors := st.errors }

/-! ## Matrix bucket matching (`MatrixRenderer.renderMatrix`)

A document matches a cell `(xVal, yVal)` when, after applying the axis
transforms, the canonical string of some element of the raw value (or of
the scalar raw value itself) equals the cell label's string, on both axes. -/

/-- One axis of the cell-matching test: an array raw value matches when some
element's transform string equals the cell label string, a scalar when its
own transform string does. -/
def axisMatches (tfn : Option JsFun) (raw : JVal) (cellVal : JVal) : Bool :=
  match raw with
  | .vArr vs => vs.any fun v => jsString (applyTransform v tfn) == jsString cellVal
  | v => jsString (applyTransform v tfn) == jsString cellVal

def docMatchesCell (config : HermineConfig) (xTfn yTfn : Option JsFun)
    (doc : DocumentData) (xVal yVal : JVal) : Bool :=
  let rawX := getPropertyValue doc.properties config.xAxis
  let rawY := getPropertyValue doc.properties (config.yAxis.getD "")
  axisMatches xTfn rawX xVal && axisMatches yTfn rawY yVal

/-- The `result.documents.filter(...)` of one cell of `renderMatrix`. -/
def matchingDocs (config : HermineConfig) (xTfn yTfn : Option JsFun)
    (documents : List DocumentData) (xVal yVal : JVal) : List DocumentData :=
  documents.filter fun doc => docMatchesCell config xTfn yTfn doc xVal yVal

/-! ## Value picker modal (`ValuePickerModal`, `src/value-picker-modal.ts`) -/

/-- Source `ValuePickerModal.parseInputValue`: a number when the text round-trips
through `String(parseFloat(...))` (or `String(parseInt(...))`), else the
string itself. -/
def parseInputValue (input : String) : JVal :=
  match parseSignedDec input.data with
  | some (q, _) =>
    if decimalString q == input then .vNum q
    else
      -- parseInt branch: integer-prefix parse with the same round-trip test
      (match parseSignedDec input.data with
       | some (qi, _) =>
         if decimalString ⟨qi.num.fdiv qi.den, 1⟩ == input then .vNum ⟨qi.num.fdiv qi.den, 1⟩
         else .vStr input
       | none => .vStr input)
  | none => .vStr input

/-- The observable outcome of one `ValuePickerModal` interaction.
`submitted = none` models closing/cancelling the modal; `submitted = some
text` models confirming with `text` in the input box.  Confirmation is only
possible when the last validation pass succeeded: the trimmed text is
non-empty and re-applying the transform to the parsed value reproduces the
group label, exactly as `validateInput` computes it.  An interaction whose
text never validates can only end in cancellation, hence yields `none`. -/
def valuePickerChoice (transformFn : JsFun) (groupLabel : String)
    (submitted : Option String) : Option JVal :=
  match submitted with
  | none => none
  | some text =>
    let raw := jsTrim text
    if raw == "" then none
    else
      let parsed := parseInputValue raw
      let transformed := jsString (applyTransform parsed (some transformFn))
      if transformed == groupLabel then some parsed else none

/-! ## Drop resolution (`MatrixRenderer.resolveDropValue`,
`MatrixRenderer.setupDropZone`) -/

/-- Source `resolveDropValue(cellDisplayValue, transformFn, reverseMap, axisName)`:
without a transform the cell value is written directly; with a transform the
picker modal decides (the reverse-map candidates only pre-fill suggestions).
`none` is a cancelled resolution. -/
def resolveDropValue (transformFn : Option JsFun) (reverseMap : List (String × List JVal))
    (cellDisplayValue : JVal) (userInput : Option String) : Option JVal :=
  match transformFn with
  | none => some cellDisplayValue
  | some f =>
    let _candidates := (mapGet reverseMap (jsString cellDisplayValue)).getD []
    valuePickerChoice f (jsString cellDisplayValue) userInput

/-- Outcome of the drop handler: either no property write at all, or one
`updateProperties` call with the given update record. -/
inductive DropAction where
  | noWrite : DropAction
  | write : List (String × JVal) → DropAction
deriving DecidableEq

def dropFinish (updates : List (String × JVal)) : DropAction :=
  if updates.isEmpty then .noWrite else .write updates

/-- The y-axis half of the drop handler (`// Only update Y-axis if not
readonly`): an early `return` on a cancelled resolution. -/
def dropYStep (config : HermineConfig) (yTfn : Option JsFun)
    (yRmap : List (String × List JVal)) (yVal : JVal) (yInput : Option String)
    (updates : List (String × JVal)) : DropAction :=
  if config.yReadonly then dropFinish updates
  else
    match resolveDropValue yTfn yRmap yVal yInput with
    | none => .noWrite
    | some v => dropFinish (objSet updates (config.yAxis.getD "") v)

/-- The drop handler of `setupDropZone` (after its reachability guards):
resolve the x axis (unless readonly), then the y axis (unless readonly),
and call `updateProperties` only when nothing was cancelled and the update
record is non-empty. -/
def handleDrop (config : HermineConfig) (xTfn yTfn : Option JsFun)
    (xRmap yRmap : List (String × List JVal)) (xVal yVal : JVal)
    (xInput yInput : Option String) : DropAction :=
  if config.xReadonly then dropYStep config yTfn yRmap yVal yInput []
  else
    match resolveDropValue xTfn xRmap xVal xInput with
    | none => .noWrite
    | some v => dropYStep config yTfn yRmap yVal yInput (objSet [] config.xAxis v)

/-! ## Concrete fixtures used by witnesses and counterexamples -/

/-- A compiled transform that maps every value to the label `"G"`. -/
def witTransform : JsFun := fun _ => some (.vStr "G")

def c2Config : HermineConfig := { source := "all", xAxis := "Status", yAxis := some "Prio" }

def c3File : TFile := ⟨"Note.md", "Note", "md", ⟨0, 0, 0⟩⟩

def c3Cache : FileCache := ⟨some [], some []⟩

def c3Vault : Vault := ⟨[c3File], fun _ => some c3Cache, []⟩

/-- The document the engine builds for `c3File` over `c3Vault`. -/
def c3Doc : DocumentData :=
  ⟨c3File, "Note.md", "Note",
   .vObj [("file.name", .vStr "Note"), ("file.path", .vStr "Note.md"),
          ("file.ctime", .vNum ⟨0, 1⟩), ("file.mtime", .vNum ⟨0, 1⟩),
          ("file.size", .vNum ⟨0, 1⟩), ("file.tags", .vArr [])]⟩

/-- A cache whose frontmatter declares a nested object under the key
`file`. -/
def c3CacheNested : FileCache := ⟨some [("file", .vObj [("name", .vStr "X")])], some []⟩

def c3VaultNested : Vault := ⟨[c3File], fun _ => some c3CacheNested, []⟩

def c5File : TFile := ⟨"N.md", "N", "md", ⟨0, 0, 0⟩⟩

def c5Vault : Vault := ⟨[c5File], fun _ => none, []⟩

def c6Doc : DocumentData := ⟨⟨"A.md", "A", "md", ⟨0, 0, 0⟩⟩, "A.md", "A", .vObj []⟩

def c6State : EngineState := ⟨[c6Doc], [.vStr "x"], [], [.vStr "x"], [], []⟩

/-- An environment whose whole-set filter always throws. -/
def c6Env : JsEnv := ⟨fun _ => none, fun _ _ => .error "boom"⟩

def c6Config : HermineConfig :=
  { source := "all", xAxis := "Status", filter := some "docs => docs.oops()" }

def c7Props : JVal :=
  .vObj [("tags", .vArr [.vStr "a", .vStr "b"]), ("Status", .vStr "s")]

def c7Doc : DocumentData := ⟨⟨"C.md", "C", "md", ⟨0, 0, 0⟩⟩, "C.md", "C", c7Props⟩

def c7Config : HermineConfig := { source := "all", xAxis := "tags", yAxis := some "Status" }

def c10Doc : DocumentData := ⟨⟨"D.md", "D", "md", ⟨0, 0, 0⟩⟩, "D.md", "D", .vObj []⟩

/-! ## Helper lemmas -/

theorem lookupField_objSet_self (l : List (String × JVal)) (k : String) (v : JVal) :
    lookupField (objSet l k v) k = some v := by
  induction l with
  | nil => simp [objSet, lookupField]
  | cons hd tl ih =>
    obtain ⟨k1, v1⟩ := hd
    by_cases h : k1 = k
    · subst h
      simp [objSet, lookupField]
    · simp [objSet, lookupField, h, ih]

theorem lookupField_objSet_ne (l : List (String × JVal)) (key k : String) (v : JVal)
    (h : key ≠ k) : lookupField (objSet l key v) k = lookupField l k := by
  induction l with
  | nil => simp [objSet, lookupField, h]
  | cons hd tl ih =>
    obtain ⟨k1, v1⟩ := hd
    by_cases h1 : k1 = key
    · subst h1
      simp [objSet, lookupField, h]
    · simp [objSet, lookupField, h1, ih]

theorem lookupField_objAssign_none (fs : List (String × JVal)) :
    ∀ (t : List (String × JVal)) (k : String),
      lookupField t k = none → lookupField fs k = none →
      lookupField (objAssign t fs) k = none := by
  induction fs with
  | nil => intro t k h1 _; simpa [objAssign] using h1
  | cons hd tl ih =>
    intro t k h1 h2
    obtain ⟨k1, v1⟩ := hd
    by_cases hk : k1 = k
    · subst hk
      simp [lookupField] at h2
    · simp only [lookupField, beq_iff_eq, hk, if_false] at h2
      simpa [objAssign] using ih (objSet t k1 v1) k
        (by rw [lookupField_objSet_ne t k1 k v1 hk]; exact h1) h2

theorem jvalSVZ_refl (v : JVal) : jvalSVZ v v = true := by
  cases v <;> simp [jvalSVZ, Frac.eqB]

theorem setHas_jsSetAdd_self (s : List JVal) (v : JVal) :
    setHas (jsSetAdd s v) v = true := by
  unfold jsSetAdd
  by_cases h : setHas s v = true
  · simp [h]
  · simp only [h]
    simp only [Bool.false_eq_true, if_false]
    simp [setHas, List.any_append, jvalSVZ_refl]

theorem setHas_jsSetAdd_mono (s : List JVal) (v w : JVal) (h : setHas s v = true) :
    setHas (jsSetAdd s w) v = true := by
  unfold jsSetAdd
  by_cases hw : setHas s w = true
  · simp [hw, h]
  · simp only [hw]
    simp only [Bool.false_eq_true, if_false]
    simp only [setHas, List.any_append] at *
    simp [h]

theorem jsMember_ok (v : JVal) (p : String) (h1 : v ≠ .vNull) (h2 : v ≠ .vUndefined) :
    ∃ w, jsMember v p = .ok w := by
  cases v <;> simp_all [jsMember]

theorem getPropParts_ok : ∀ (parts : List String) (v : JVal),
    getPropParts v parts = .ok (getPropPartsT v parts) := by
  intro parts
  induction parts with
  | nil => intro v; rfl
  | cons p rest ih =>
    intro v
    by_cases hg : (v == JVal.vNull || v == JVal.vUndefined) = true
    · simp [getPropParts, getPropPartsT, hg]
    · simp only [getPropParts, getPropPartsT, hg]
      simp only [Bool.or_eq_true, beq_iff_eq] at hg
      push_neg at hg
      obtain ⟨w, hw⟩ := jsMember_ok v p hg.1 hg.2
      simp [hw, ih]

theorem getPropPartsT_append_undefined : ∀ (pre : List String) (v : JVal) (post : List String),
    getPropPartsT v pre = .vUndefined →
    getPropPartsT v (pre ++ post) = .vUndefined := by
  intro pre
  induction pre with
  | nil =>
    intro v post h
    simp only [getPropPartsT] at h
    subst h
    cases post with
    | nil => rfl
    | cons p rest => simp [getPropPartsT]
  | cons p rest ih =>
    intro v post h
    by_cases hg : (v == JVal.vNull || v == JVal.vUndefined) = true
    · simp [getPropPartsT, hg]
    · simp only [getPropPartsT, hg] at h ⊢
      simp only [Bool.false_eq_true, if_false] at h ⊢
      cases hm : jsMember v p with
      | ok w =>
        rw [hm] at h
        exact ih w post h
      | error e => rfl

theorem takeWhile_append_all {α : Type} (p : α → Bool) (l1 l2 : List α)
    (h : ∀ c ∈ l1, p c = true) :
    (l1 ++ l2).takeWhile p = l1 ++ l2.takeWhile p := by
  induction l1 with
  | nil => simp
  | cons a l ih =>
    have ha := h a (by simp)
    simp only [List.cons_append, List.takeWhile_cons, ha, if_true]
    simp [ih fun c hc => h c (by simp [hc])]

/-- A whitespace-free token followed by a tail whose `\s*(!?=)\s*"..."` part
matches is found by the equality-filter regex, with the token as group 1
(the leftmost start, with the greedy longest `\S+`). -/
theorem searchEquals_token (tok tail : List Char)
    (hne : tok ≠ [])
    (hns : ∀ c ∈ tok, jsIsSpace c = false)
    (htw : tail.takeWhile (fun c => !jsIsSpace c) = [])
    (op val : String)
    (htail : eqTailMatch tail = some (op, val)) :
    searchEquals (tok ++ tail) = some (⟨tok⟩, op, val) := by
  have hrun : (tok ++ tail).takeWhile (fun c => !jsIsSpace c) = tok := by
    rw [takeWhile_append_all _ tok tail (fun c hc => by simp [hns c hc])]
    simp [htw]
  have hmatch : matchEqualsAt (tok ++ tail) = some (⟨tok⟩, op, val) := by
    unfold matchEqualsAt
    rw [hrun]
    cases tok with
    | nil => exact absurd rfl hne
    | cons c ct =>
      have hlen : (c :: ct).length = ct.length + 1 := rfl
      rw [hlen]
      unfold eqTryGroup1
      have hdrop : ((c :: ct) ++ tail).drop (ct.length + 1) = tail :=
        List.drop_left (c :: ct) tail
      have htake : ((c :: ct) ++ tail).take (ct.length + 1) = c :: ct :=
        List.take_left (c :: ct) tail
      rw [hdrop, htail, htake]
  cases tok with
  | nil => exact absurd rfl hne
  | cons c ct =>
    show searchEquals (c :: (ct ++ tail)) = _
    unfold searchEquals
    have : matchEqualsAt (c :: (ct ++ tail)) = some (⟨c :: ct⟩, op, val) := by
      simpa using hmatch
    rw [this]

theorem containsTryGroup1_none (tok tail : List Char)
    (hns : ∀ c ∈ tok, jsIsSpace c = false)
    (ht : containsTailMatch tail = none) :
    ∀ j, j ≤ tok.length → containsTryGroup1 (tok ++ tail) j = none := by
  intro j
  induction j with
  | zero => intro _; rfl
  | succ k ih =>
    intro hj
    unfold containsTryGroup1
    have hnone : containsTailMatch ((tok ++ tail).drop (k + 1)) = none := by
      rcases Nat.lt_or_ge (k + 1) tok.length with hlt | hge
      · rw [List.drop_append_of_le_length (Nat.le_of_lt hlt)]
        rw [List.drop_eq_getElem_cons hlt]
        have hmem : tok[k + 1] ∈ tok := List.getElem_mem hlt
        have hsp := hns _ hmem
        simp only [List.cons_append, containsTailMatch, hsp, Bool.false_eq_true, if_false]
      · have heq : k + 1 = tok.length := Nat.le_antisymm hj hge
        rw [heq, List.drop_left]
        exact ht
    rw [hnone]
    exact ih (Nat.le_of_succ_le hj)

/-- The contains-filter regex finds no match in `tok ++ tail` when `tok` is
whitespace-free and the tail neither matches the post-group part at any
position nor contains a match on its own. -/
theorem searchContains_append_none (tok tail : List Char)
    (hns : ∀ c ∈ tok, jsIsSpace c = false)
    (htw : tail.takeWhile (fun c => !jsIsSpace c) = [])
    (ht : containsTailMatch tail = none)
    (hs : searchContains tail = none) :
    searchContains (tok ++ tail) = none := by
  induction tok with
  | nil => simpa using hs
  | cons c ct ih =>
    show searchContains (c :: (ct ++ tail)) = none
    unfold searchContains
    have hrun : ((c :: ct) ++ tail).takeWhile (fun x => !jsIsSpace x) = c :: ct := by
      rw [takeWhile_append_all _ (c :: ct) tail (fun x hx => by simp [hns x hx])]
      simp [htw]
    have hnone : matchContainsAt (c :: (ct ++ tail)) = none := by
      unfold matchContainsAt
      have : ((c :: ct) ++ tail).takeWhile (fun x => !jsIsSpace x) = c :: ct := hrun
      simp only [List.cons_append] at this
      rw [this]
      have := containsTryGroup1_none (c :: ct) tail hns ht (c :: ct).length (Nat.le_refl _)
      simpa using this
    rw [hnone]
    exact ih fun x hx => hns x (by simp [hx])

theorem mem_objSet_key : ∀ (l : List (String × JVal)) (key : String) (val : JVal)
    (k : String) (v : JVal), (k, v) ∈ objSet l key val → k = key ∨ ∃ w, (k, w) ∈ l := by
  intro l key val
  induction l with
  | nil =>
    intro k v h
    simp [objSet] at h
    exact Or.inl h.1
  | cons hd tl ih =>
    intro k v h
    obtain ⟨k1, v1⟩ := hd
    by_cases h1 : k1 = key
    · subst h1
      simp only [objSet, beq_self_eq_true, if_true, List.mem_cons] at h
      rcases h with heq | hmem
      · exact Or.inl (by simpa using congrArg Prod.fst heq)
      · exact Or.inr ⟨v, List.mem_cons_of_mem _ hmem⟩
    · simp only [objSet, beq_iff_eq, h1, if_false, List.mem_cons] at h
      rcases h with heq | hmem
      · exact Or.inr ⟨v1, by simp [Prod.ext_iff] at heq; simp [heq]⟩
      · rcases ih k v hmem with hk | ⟨w, hw⟩
        · exact Or.inl hk
        · exact Or.inr ⟨w, List.mem_cons_of_mem _ hw⟩

/-! ## Claim theorems -/

/-- C4: axis range expansion produces the inclusive sequence from `from` to
`to`: parsing "[0..100, Step 10]" yields "0","10",...,"100"; "[1..5]" yields
"1".."5" (step defaults to 1); "[100..0, Step 25]" yields the descending
sequence "100","75","50","25","0"; and a non-positive step collapses the
range to the single value `from`. -/
theorem c4_range_expansion (f t s : Frac) (hs : s.leB fracZero = true) :
    parseAxisValues "[0..100, Step 10]"
      = (["0", "10", "20", "30", "40", "50", "60", "70", "80", "90", "100"], false)
    ∧ parseAxisValues "[1..5]" = (["1", "2", "3", "4", "5"], false)
    ∧ parseAxisValues "[100..0, Step 25]" = (["100", "75", "50", "25", "0"], false)
    ∧ expandRangeValues f t s = [decimalString f] := by
  refine ⟨by decide, by decide, by decide, ?_⟩
  unfold expandRangeValues
  rw [hs]
  simp

theorem c4_range_expansion_witness :
    Frac.leB ⟨0, 1⟩ fracZero = true
    ∧ expandRangeValues ⟨1, 1⟩ ⟨5, 1⟩ ⟨0, 1⟩ = [decimalString ⟨1, 1⟩] :=
  ⟨by decide, (c4_range_expansion ⟨1, 1⟩ ⟨5, 1⟩ ⟨0, 1⟩ (by decide)).2.2.2⟩

/-- C5 (amended): the source specifiers "all", "alle" and "*" each resolve
to the set of all markdown documents of the vault ("every" is not such a
token — see the counterexample). -/
theorem c5_all_sources (vault : Vault) :
    getSourceFiles vault "all" = vault.markdownFiles
    ∧ getSourceFiles vault "alle" = vault.markdownFiles
    ∧ getSourceFiles vault "*" = vault.markdownFiles :=
  ⟨rfl, rfl, rfl⟩

/-- C5 counterexample: "every" is treated as a folder path, not as an
all-documents token; on a vault with one markdown file and no folders it
yields the empty set instead of all documents. -/
theorem c5_every_counterexample :
    getSourceFiles c5Vault "every" = []
    ∧ getSourceFiles c5Vault "every" ≠ c5Vault.markdownFiles :=
  ⟨rfl, by decide⟩

/-- C8: dotted-path property lookup is total — the loop with its
null/undefined guard never reaches the trapping member access (the `Except`
rendering always returns `.ok`) — and whenever the prefix of the path
resolves to an absent value the whole lookup returns absent. -/
theorem c8_lookup_total (properties : JVal) (path : String) :
    getPropertyValueE properties path = .ok (getPropertyValue properties path)
    ∧ (∀ pre post, splitPath path = pre ++ post →
        getPropPartsT properties pre = .vUndefined →
        getPropertyValue properties path = .vUndefined) := by
  constructor
  · exact getPropParts_ok (splitPath path) properties
  · intro pre post hsplit hpre
    unfold getPropertyValue
    rw [hsplit]
    exact getPropPartsT_append_undefined pre properties post hpre

theorem c8_lookup_total_witness :
    getPropertyValue (JVal.vObj [("a", .vNull)]) "a.b.c" = .vUndefined :=
  (c8_lookup_total (JVal.vObj [("a", .vNull)]) "a.b.c").2 ["a", "b"] ["c"]
    (by decide) (by decide)

/-- C9: transform compilation rejects (returns null for) every expression
whose trimmed text does not start with "(" — including the syntactically
valid arrow function "v => v" — and the axis then behaves as the identity
transform. -/
theorem c9_arrow_function_guard (evalFn : String → Option JsFun) (expr : String)
    (h : ((jsTrim expr).data.headD ' ' == '(') = false) :
    compileTransform evalFn expr = none
    ∧ (∀ v, applyTransform v (compileTransform evalFn expr) = v)
    ∧ compileTransform evalFn "v => v" = none := by
  have h' : (jsTrim expr).data.head?.getD ' ' ≠ '(' := by simpa using h
  have h1 : compileTransform evalFn expr = none := by
    simp [compileTransform, h', Ne.symm h']
  have h2 : compileTransform evalFn "v => v" = none := by
    have hv : (jsTrim "v => v").data.head?.getD ' ' ≠ '(' := by decide
    simp [compileTransform, hv, Ne.symm hv]
  exact ⟨h1, fun v => by rw [h1]; rfl, h2⟩

theorem c9_arrow_function_guard_witness :
    ((jsTrim "v => v").data.headD ' ' == '(') = false
    ∧ compileTransform (fun _ => some fun v => some v) "v => v" = none :=
  ⟨by decide, (c9_arrow_function_guard (fun _ => some fun v => some v) "v => v" (by decide)).1⟩

/-- C1: under an active transform, a raw value chosen in the picker modal is
accepted only if the string of the transform applied to it equals the string
of the target bucket label; hence every accepted write satisfies
`string(transform(writtenValue)) == string(targetLabel)`. -/
theorem c1_drop_validation (f : JsFun) (reverseMap : List (String × List JVal))
    (cellDisplayValue : JVal) (userInput : Option String) (v : JVal)
    (h : resolveDropValue (some f) reverseMap cellDisplayValue userInput = some v) :
    jsString (applyTransform v (some f)) = jsString cellDisplayValue := by
  unfold resolveDropValue valuePickerChoice at h
  cases userInput with
  | none => exact absurd h (by simp)
  | some text =>
    simp only at h
    split at h
    · exact absurd h (by simp)
    · split at h
      case isTrue htr =>
        have hv : parseInputValue (jsTrim text) = v := by
          simpa using h
        rw [← hv]
        simpa using htr
      case isFalse => exact absurd h (by simp)

theorem c1_drop_validation_witness :
    resolveDropValue (some witTransform) [] (.vStr "G") (some "hello") = some (.vStr "hello")
    ∧ jsString (applyTransform (.vStr "hello") (some witTransform)) = jsString (.vStr "G") :=
  ⟨rfl, c1_drop_validation witTransform [] (.vStr "G") (some "hello") (.vStr "hello") rfl⟩

/-- C2: the drop write is all-or-nothing — a cancelled resolution of either
non-readonly axis yields no property write at all, a write happens only
after every required axis resolved successfully, and readonly axes never
appear in the write set. -/
theorem c2_drop_atomicity (config : HermineConfig) (xTfn yTfn : Option JsFun)
    (xRmap yRmap : List (String × List JVal)) (xVal yVal : JVal)
    (xInput yInput : Option String) :
    (config.xReadonly = false →
      resolveDropValue xTfn xRmap xVal xInput = none →
      handleDrop config xTfn yTfn xRmap yRmap xVal yVal xInput yInput = .noWrite)
    ∧ (config.yReadonly = false →
      resolveDropValue yTfn yRmap yVal yInput = none →
      handleDrop config xTfn yTfn xRmap yRmap xVal yVal xInput yInput = .noWrite)
    ∧ (∀ updates,
        handleDrop config xTfn yTfn xRmap yRmap xVal yVal xInput yInput = .write updates →
        (config.xReadonly = false → ∃ v, resolveDropValue xTfn xRmap xVal xInput = some v)
        ∧ (config.yReadonly = false → ∃ v, resolveDropValue yTfn yRmap yVal yInput = some v)
        ∧ (∀ k v, (k, v) ∈ updates →
            (k = config.xAxis ∧ config.xReadonly = false)
            ∨ (k = config.yAxis.getD "" ∧ config.yReadonly = false))) := by
  refine ⟨?_, ?_, ?_⟩
  · intro hx hrx
    simp [handleDrop, hx, hrx]
  · intro hy hry
    unfold handleDrop
    split
    · simp [dropYStep, hy, hry]
    · cases hrx : resolveDropValue xTfn xRmap xVal xInput with
      | none => rfl
      | some vx =>
        show dropYStep config yTfn yRmap yVal yInput (objSet [] config.xAxis vx) = _
        simp [dropYStep, hy, hry]
  · intro updates hw
    unfold handleDrop at hw
    split at hw
    next hx =>
      unfold dropYStep at hw
      split at hw
      next hy => simp [dropFinish] at hw
      next hy =>
        cases hry : resolveDropValue yTfn yRmap yVal yInput with
        | none => rw [hry] at hw; exact absurd hw (by simp)
        | some vy =>
          rw [hry] at hw
          have hw2 : dropFinish (objSet [] (config.yAxis.getD "") vy)
              = DropAction.write updates := hw
          unfold dropFinish at hw2
          split at hw2
          · exact absurd hw2 (by simp)
          · injection hw2 with hv
            subst hv
            refine ⟨fun hc => absurd hx (by simp [hc]), fun _ => ⟨vy, rfl⟩, ?_⟩
            intro k v hmem
            rcases mem_objSet_key _ _ _ _ _ hmem with hk | ⟨w, hw3⟩
            · exact Or.inr ⟨hk, by simpa using hy⟩
            · simp at hw3
    next hx =>
      cases hrx : resolveDropValue xTfn xRmap xVal xInput with
      | none => rw [hrx] at hw; exact absurd hw (by simp)
      | some vx =>
        rw [hrx] at hw
        have hw2 : dropYStep config yTfn yRmap yVal yInput (objSet [] config.xAxis vx)
            = DropAction.write updates := hw
        unfold dropYStep at hw2
        split at hw2
        next hy =>
          unfold dropFinish at hw2
          split at hw2
          · exact absurd hw2 (by simp)
          · injection hw2 with hv
            subst hv
            refine ⟨fun _ => ⟨vx, rfl⟩, fun hc => absurd hy (by simp [hc]), ?_⟩
            intro k v hmem
            rcases mem_objSet_key _ _ _ _ _ hmem with hk | ⟨w, hw3⟩
            · exact Or.inl ⟨hk, by simpa using hx⟩
            · simp at hw3
        next hy =>
          cases hry : resolveDropValue yTfn yRmap yVal yInput with
          | none => rw [hry] at hw2; exact absurd hw2 (by simp)
          | some vy =>
            rw [hry] at hw2
            have hw3 : dropFinish (objSet (objSet [] config.xAxis vx) (config.yAxis.getD "") vy)
                = DropAction.write updates := hw2
            unfold dropFinish at hw3
            split at hw3
            · exact absurd hw3 (by simp)
            · injection hw3 with hv
              subst hv
              refine ⟨fun _ => ⟨vx, rfl⟩, fun _ => ⟨vy, rfl⟩, ?_⟩
              intro k v hmem
              rcases mem_objSet_key _ _ _ _ _ hmem with hk | ⟨w, hw4⟩
              · exact Or.inr ⟨hk, by simpa using hy⟩
              · rcases mem_objSet_key _ _ _ _ _ hw4 with hk2 | ⟨w2, hw5⟩
                · exact Or.inl ⟨hk2, by simpa using hx⟩
                · simp at hw5

theorem c2_drop_atomicity_witness :
    c2Config.xReadonly = false
    ∧ resolveDropValue (some witTransform) [] (.vStr "G") none = none
    ∧ handleDrop c2Config (some witTransform) none [] [] (.vStr "G") (.vStr "p") none none
        = .noWrite :=
  ⟨rfl, rfl,
   (c2_drop_atomicity c2Config (some witTransform) none [] [] (.vStr "G") (.vStr "p")
      none none).1 rfl rfl⟩

/-- C6: when the whole-set filter predicate throws, the result keeps the
per-document-stage state unchanged except for exactly one appended error
message. -/
theorem c6_wholeset_filter_error (env : JsEnv) (config : HermineConfig)
    (xTfn yTfn : Option JsFun) (st : EngineState) (fexpr e : String)
    (hf : config.filter = some fexpr) (hne : ¬fexpr = "")
    (herr : env.evalSetFilter fexpr st.documents = .error e) :
    applyWholeSetFilter env config xTfn yTfn st
      = { st with errors := st.errors ++ ["Filter error: " ++ e] } := by
  unfold applyWholeSetFilter
  rw [hf]
  simp only [strOptTruthy, Option.getD_some]
  have : (fexpr == "") = false := by simpa using hne
  rw [this]
  simp only [Bool.not_false, if_true]
  rw [herr]

theorem c6_wholeset_filter_error_witness :
    applyWholeSetFilter c6Env c6Config none none c6State
      = { c6State with errors := c6State.errors ++ ["Filter error: boom"] } :=
  c6_wholeset_filter_error c6Env c6Config none none c6State "docs => docs.oops()" "boom"
    rfl (by decide) rfl

/-- C7: a sequence-valued axis property `[a, b]` contributes each element
individually to the raw-value list, adds both transformed labels to the
bucket set, and the document is matched into both corresponding buckets
(OR semantics). -/
theorem c7_multivalue_or_semantics (tfn yTfn : Option JsFun) (axis : String)
    (properties : JVal) (acc : AxisAcc) (a b : JVal)
    (config : HermineConfig) (documents : List DocumentData)
    (doc : DocumentData) (yVal : JVal)
    (hcol : getPropertyValue properties axis = .vArr [a, b])
    (hmat : getPropertyValue doc.properties config.xAxis = .vArr [a, b])
    (hmem : doc ∈ documents)
    (hy : axisMatches yTfn (getPropertyValue doc.properties (config.yAxis.getD "")) yVal
          = true) :
    (collectAxis tfn axis properties acc).raws = acc.raws ++ [a, b]
    ∧ setHas (collectAxis tfn axis properties acc).labels (applyTransform a tfn) = true
    ∧ setHas (collectAxis tfn axis properties acc).labels (applyTransform b tfn) = true
    ∧ doc ∈ matchingDocs config tfn yTfn documents (applyTransform a tfn) yVal
    ∧ doc ∈ matchingDocs config tfn yTfn documents (applyTransform b tfn) yVal := by
  have hcoll : collectAxis tfn axis properties acc
      = ⟨(acc.raws ++ [a]) ++ [b],
         jsSetAdd (jsSetAdd acc.labels (applyTransform a tfn)) (applyTransform b tfn)⟩ := by
    unfold collectAxis
    rw [hcol]
    rfl
  refine ⟨?_, ?_, ?_, ?_, ?_⟩
  · rw [hcoll]; simp
  · rw [hcoll]
    exact setHas_jsSetAdd_mono _ _ _ (setHas_jsSetAdd_self _ _)
  · rw [hcoll]
    exact setHas_jsSetAdd_self _ _
  · unfold matchingDocs
    refine List.mem_filter.mpr ⟨hmem, ?_⟩
    show (axisMatches tfn (getPropertyValue doc.properties config.xAxis) (applyTransform a tfn)
        && axisMatches yTfn (getPropertyValue doc.properties (config.yAxis.getD "")) yVal) = true
    rw [hmat, hy]
    simp [axisMatches]
  · unfold matchingDocs
    refine List.mem_filter.mpr ⟨hmem, ?_⟩
    show (axisMatches tfn (getPropertyValue doc.properties config.xAxis) (applyTransform b tfn)
        && axisMatches yTfn (getPropertyValue doc.properties (config.yAxis.getD "")) yVal) = true
    rw [hmat, hy]
    simp [axisMatches]

theorem c7_multivalue_or_semantics_witness :
    (collectAxis none "tags" c7Props ⟨[], []⟩).raws = [] ++ [.vStr "a", .vStr "b"]
    ∧ c7Doc ∈ matchingDocs c7Config none none [c7Doc] (applyTransform (.vStr "a") none)
        (.vStr "s")
    ∧ c7Doc ∈ matchingDocs c7Config none none [c7Doc] (applyTransform (.vStr "b") none)
        (.vStr "s") := by
  have h := c7_multivalue_or_semantics none none "tags" c7Props ⟨[], []⟩
    (.vStr "a") (.vStr "b") c7Config [c7Doc] c7Doc (.vStr "s")
    rfl rfl (by simp) (by decide)
  exact ⟨h.1, h.2.2.2.1, h.2.2.2.2⟩

/-- C10: the per-document equality filter compares the stringified property
value with no special-casing of absence, so on a document where the path is
absent, `path = "undefined"` evaluates to true and `path != "undefined"`
to false. -/
theorem c10_absent_equals_undefined (doc : DocumentData) (path : String)
    (hne : path.data ≠ [])
    (hns : ∀ c ∈ path.data, jsIsSpace c = false)
    (habs : getPropertyValue doc.properties path = .vUndefined) :
    evaluateFilter doc (path ++ " = \"undefined\"") = true
    ∧ evaluateFilter doc (path ++ " != \"undefined\"") = false := by
  have hdata1 : (path ++ " = \"undefined\"").data = path.data ++ (" = \"undefined\"").data := rfl
  have hdata2 : (path ++ " != \"undefined\"").data = path.data ++ (" != \"undefined\"").data := rfl
  have hmk : (⟨path.data⟩ : String) = path := rfl
  have hcon1 : searchContains (path.data ++ (" = \"undefined\"").data) = none :=
    searchContains_append_none path.data _ hns (by decide) (by decide) (by decide)
  have hcon2 : searchContains (path.data ++ (" != \"undefined\"").data) = none :=
    searchContains_append_none path.data _ hns (by decide) (by decide) (by decide)
  have heq1 : searchEquals (path.data ++ (" = \"undefined\"").data)
      = some (path, "=", "undefined") := by
    rw [← hmk]
    exact searchEquals_token path.data _ hne hns (by decide) "=" "undefined" (by decide)
  have heq2 : searchEquals (path.data ++ (" != \"undefined\"").data)
      = some (path, "!=", "undefined") := by
    rw [← hmk]
    exact searchEquals_token path.data _ hne hns (by decide) "!=" "undefined" (by decide)
  constructor
  · unfold evaluateFilter
    rw [hdata1, hcon1, heq1]
    simp only [habs]
    decide
  · unfold evaluateFilter
    rw [hdata2, hcon2, heq2]
    simp only [habs]
    decide

theorem c10_absent_equals_undefined_witness :
    evaluateFilter c10Doc ("Status" ++ " = \"undefined\"") = true
    ∧ evaluateFilter c10Doc ("Status" ++ " != \"undefined\"") = false :=
  c10_absent_equals_undefined c10Doc "Status" (by decide) (by decide) (by decide)

/-- C3 counterexample: on a freshly loaded document with basename "Note" and
empty frontmatter, dotted-path lookup of "file.name" yields absent
(undefined), not the synthesized value "Note"; and with a frontmatter that
declares a nested object under "file", the declared value is returned —
the declared property does override the lookup. -/
theorem c3_file_lookup_counterexample :
    (getDocumentData c3Vault c3File).map (fun d => getPropertyValue d.properties "file.name")
      = some .vUndefined
    ∧ some JVal.vUndefined ≠ some (JVal.vStr c3File.basename)
    ∧ (getDocumentData c3VaultNested c3File).map
        (fun d => getPropertyValue d.properties "file.name")
      = some (.vStr "X") :=
  ⟨rfl, by decide, rfl⟩

/-- C3 (amended): the synthesized file-derived properties live in the bag
under literal flat keys ("file.name", ...), where they do take precedence
over identically named literal frontmatter keys (direct member access
returns the synthesized value); but the dotted-path lookup splits on "."
and therefore does not reach them: it returns absent whenever the
frontmatter has no "file" key. -/
theorem c3_file_properties_amended (vault : Vault) (file : TFile) (cache : FileCache)
    (fm : List (String × JVal)) (d : DocumentData)
    (hcache : vault.fileCache file = some cache)
    (hfm : cache.frontmatter = some fm)
    (hnofile : lookupField fm "file" = none)
    (hdoc : getDocumentData vault file = some d) :
    jsMember d.properties "file.name" = .ok (.vStr file.basename)
    ∧ getPropertyValue d.properties "file.name" = .vUndefined := by
  unfold getDocumentData at hdoc
  rw [hcache] at hdoc
  simp only [hfm] at hdoc
  set p0 := objAssign [] fm with hp0
  set p1 := objSet p0 "file.name" (.vStr file.basename) with hp1
  set p2 := objSet p1 "file.path" (.vStr file.path) with hp2
  set p3 := objSet p2 "file.ctime" (.vNum (Frac.ofInt file.stat.ctime)) with hp3
  set p4 := objSet p3 "file.mtime" (.vNum (Frac.ofInt file.stat.mtime)) with hp4
  set p5 := objSet p4 "file.size" (.vNum (Frac.ofInt file.stat.size)) with hp5
  set p6 := objSet p5 "file.tags" (.vArr ((cache.allTags.getD []).map JVal.vStr)) with hp6
  have hdprops : d.properties = .vObj p6 := by
    cases hdoc
    rfl
  have hname : lookupField p6 "file.name" = some (.vStr file.basename) := by
    rw [hp6, lookupField_objSet_ne _ _ _ _ (by decide)]
    rw [hp5, lookupField_objSet_ne _ _ _ _ (by decide)]
    rw [hp4, lookupField_objSet_ne _ _ _ _ (by decide)]
    rw [hp3, lookupField_objSet_ne _ _ _ _ (by decide)]
    rw [hp2, lookupField_objSet_ne _ _ _ _ (by decide)]
    rw [hp1, lookupField_objSet_self]
  have hfile : lookupField p6 "file" = none := by
    rw [hp6, lookupField_objSet_ne _ _ _ _ (by decide)]
    rw [hp5, lookupField_objSet_ne _ _ _ _ (by decide)]
    rw [hp4, lookupField_objSet_ne _ _ _ _ (by decide)]
    rw [hp3, lookupField_objSet_ne _ _ _ _ (by decide)]
    rw [hp2, lookupField_objSet_ne _ _ _ _ (by decide)]
    rw [hp1, lookupField_objSet_ne _ _ _ _ (by decide)]
    exact lookupField_objAssign_none fm [] "file" rfl hnofile
  constructor
  · rw [hdprops]
    simp [jsMember, hname]
  · rw [hdprops]
    have hsplit : splitPath "file.name" = ["file", "name"] := rfl
    unfold getPropertyValue
    rw [hsplit]
    simp [getPropPartsT, jsMember, hfile]

theorem c3_file_properties_amended_witness :
    jsMember c3Doc.properties "file.name" = .ok (.vStr "Note")
    ∧ getPropertyValue c3Doc.properties "file.name" = .vUndefined :=
  c3_file_properties_amended c3Vault c3File c3Cache [] c3Doc rfl rfl rfl rfl

end Hermine
